import Mathlib

/-!
Shallow embedding of `src/main.py`, an interactive in-memory book catalog
(add / view / search / edit / delete / export over a list of records).

Interactive functions are embedded as pure functions: every `input()` call
becomes an explicit string argument, the mutable module-level `database`
becomes an explicit `List Record` threaded in and out, and each `print`
outcome that matters to the claims becomes a value of a small outcome type.
Python string primitives (`strip`, `lower`, `upper`, the `in` substring
operator, `int(...)` parsing) are modelled on Lean `String`/`List Char`
at ASCII fidelity.
-/

namespace BookDb

/-- One entry of the database: the Python dict
`{"Book": ..., "Author": ..., "Genre": ...}` (`src/main.py:25-28`).
All three keys are always present, so a structure is a faithful model. -/
structure Record where
  book : String
  author : String
  genre : String
deriving DecidableEq, Repr

/-- The whitespace characters removed by Python's `str.strip()` (ASCII
range): space, tab, newline, carriage return, vertical tab, form feed. -/
def isPySpace (c : Char) : Bool :=
  c = ' ' || c = '\t' || c = '\n' || c = '\r' || c = '\x0b' || c = '\x0c'

/-- Python `s.strip()`: drop leading and trailing whitespace. -/
def pyStrip (s : String) : String :=
  ⟨(((s.data.dropWhile isPySpace).reverse).dropWhile isPySpace).reverse⟩

/-- Python `str.lower()` on one character, ASCII range. -/
def lowerChar (c : Char) : Char :=
  if 65 ≤ c.toNat ∧ c.toNat ≤ 90 then Char.ofNat (c.toNat + 32) else c

/-- Python `str.upper()` on one character, ASCII range. -/
def upperChar (c : Char) : Char :=
  if 97 ≤ c.toNat ∧ c.toNat ≤ 122 then Char.ofNat (c.toNat - 32) else c

/-- Python `s.lower()` (ASCII fidelity). -/
def pyLower (s : String) : String :=
  ⟨s.data.map lowerChar⟩

/-- Python `s.upper()` (ASCII fidelity). -/
def pyUpper (s : String) : String :=
  ⟨s.data.map upperChar⟩

/-- Python's substring test `needle in haystack` on lists of characters:
true iff `n` occurs contiguously in the haystack (the empty needle always
succeeds, as in Python). -/
def inAux (n : List Char) : List Char → Bool
  | [] => n.isEmpty
  | c :: t => n.isPrefixOf (c :: t) || inAux n t

/-- Python's `needle in haystack` for strings. -/
def pyIn (needle haystack : String) : Bool :=
  inAux needle.data haystack.data

/-- Outcome of `add_item` (`src/main.py:24-35`): either the rejection
message for an empty title or the success message. -/
inductive AddOutcome where
  | emptyTitle   -- "Book title cannot be empty."
  | added        -- "Book added successfully!"
deriving DecidableEq, Repr

/-- `add_item` (`src/main.py:24-35`): strips the three inputs, rejects an
empty stripped title without touching the database, otherwise appends. -/
def add_item (db : List Record) (bookIn authorIn genreIn : String) :
    List Record × AddOutcome :=
  let item : Record := ⟨pyStrip bookIn, pyStrip authorIn, pyStrip genreIn⟩
  if item.book = "" then (db, .emptyTitle)
  else (db ++ [item], .added)

/-- The f-string `f"{item.get('Book')} {item.get('Author')} {item.get('Genre')}"`
built by `search_items` (`src/main.py:59`): the three fields joined by
single spaces. -/
def combinedFields (r : Record) : String :=
  r.book ++ " " ++ r.author ++ " " ++ r.genre

/-- The loop body of `search_items` (`src/main.py:58-62`): collect, in
order, the records whose lower-cased combined field string contains the
(already stripped and lower-cased) search term. -/
def searchLoop (term : String) : List Record → List Record
  | [] => []
  | item :: rest =>
    if pyIn term (pyLower (combinedFields item)) then
      item :: searchLoop term rest
    else
      searchLoop term rest

/-- `search_items` (`src/main.py:50-65`): on an empty database it prints a
message and returns before reading a query; otherwise it prints exactly the
records matched by the stripped, lower-cased query. The returned list is
the sequence of records printed. -/
def search_items (db : List Record) (queryIn : String) : List Record :=
  if db = [] then []
  else searchLoop (pyLower (pyStrip queryIn)) db

/-- The loop of `_find_matches_by_title` (`src/main.py:68-73`) carrying the
running `enumerate` index: pairs `(i, item)` such that `searchTitle` occurs
in `item["Book"].lower()`. -/
def findMatchesAux (searchTitle : String) : Nat → List Record → List (Nat × Record)
  | _, [] => []
  | i, item :: rest =>
    if pyIn searchTitle (pyLower item.book) then
      (i, item) :: findMatchesAux searchTitle (i + 1) rest
    else
      findMatchesAux searchTitle (i + 1) rest

/-- `_find_matches_by_title(search_title)` (`src/main.py:68-73`). -/
def find_matches_by_title (db : List Record) (searchTitle : String) :
    List (Nat × Record) :=
  findMatchesAux searchTitle 0 db

/-- Python `int(s)` on an already-stripped string, at ASCII fidelity:
an optional sign followed by a nonempty digit run in which single
underscores may separate digits. `none` models the `ValueError`.
The accumulator-style loop tracks whether the previous character was an
underscore (also true initially, so a leading underscore or the empty
string fails). -/
def pyDigits : List Char → Nat → Bool → Option Nat
  | [], _, true => none
  | [], acc, false => some acc
  | c :: rest, acc, lastUnderscore =>
    if c.isDigit then
      pyDigits rest (acc * 10 + (c.toNat - 48)) false
    else if c = '_' then
      if lastUnderscore then none else pyDigits rest acc true
    else none

/-- Python `int(s)` for a stripped string (sign handling). -/
def pyInt (s : String) : Option Int :=
  match s.data with
  | '+' :: rest => (pyDigits rest 0 true).map Int.ofNat
  | '-' :: rest => (pyDigits rest 0 true).map fun n => -(n : Int)
  | l => (pyDigits l 0 true).map Int.ofNat

/-- The three keys of every record dict, i.e. `field_input in book`
(`src/main.py:109`). -/
def validField (f : String) : Bool :=
  f = "Book" || f = "Author" || f = "Genre"

/-- `book[field_input] = new_value` (`src/main.py:118`): overwrite the
named field of a record. Only called with a valid field name. -/
def setField (r : Record) (f v : String) : Record :=
  if f = "Book" then { r with book := v }
  else if f = "Author" then { r with author := v }
  else { r with genre := v }

/-- Read the named field of a record, i.e. `book[field]`. Only meaningful
for the three valid field names. -/
def getField (r : Record) (f : String) : String :=
  if f = "Book" then r.book
  else if f = "Author" then r.author
  else r.genre

/-- Outcome of `edit_item` (`src/main.py:76-122`), one constructor per
`print`-and-return path. -/
inductive EditOutcome where
  | emptyDb          -- "No books to edit yet!"
  | noMatches        -- "No books found with that title."
  | invalidSelection -- "Invalid selection."
  | notANumber       -- "Please enter a valid number."
  | invalidField     -- "Invalid field name."
  | noChange         -- "No change made."
  | updated          -- "Book updated successfully!"
deriving DecidableEq, Repr

/-- `edit_item` (`src/main.py:76-122`): find title matches by stripped,
lower-cased title substring; pick one by 1-based number (`int` parse
failure or out-of-range aborts); check the stripped field name against the
dict keys; a nonempty stripped new value overwrites that field in place,
an empty one makes no change. -/
def edit_item (db : List Record) (searchIn choiceIn fieldIn valueIn : String) :
    List Record × EditOutcome :=
  if db = [] then (db, .emptyDb)
  else
    let matchList := find_matches_by_title db (pyLower (pyStrip searchIn))
    if matchList = [] then (db, .noMatches)
    else
      match pyInt (pyStrip choiceIn) with
      | none => (db, .notANumber)
      | some choice =>
        if 1 ≤ choice ∧ choice ≤ matchList.length then
          let m := matchList.getD (choice.toNat - 1) (0, ⟨"", "", ""⟩)
          let fieldInput := pyStrip fieldIn
          if validField fieldInput then
            let newValue := pyStrip valueIn
            if newValue = "" then (db, .noChange)
            else (db.set m.1 (setField m.2 fieldInput newValue), .updated)
          else (db, .invalidField)
        else (db, .invalidSelection)

/-- Outcome of `delete_item` (`src/main.py:125-161`). -/
inductive DeleteOutcome where
  | emptyDb          -- "No books to delete yet!"
  | noMatches        -- "No books found with that title."
  | invalidSelection -- "Invalid selection."
  | notANumber       -- "Please enter a valid number."
  | deleted          -- "Book deleted successfully!"
  | cancelled        -- "Delete cancelled."
deriving DecidableEq, Repr

/-- `delete_item` (`src/main.py:125-161`): same selection protocol as
`edit_item`, then `del database[index]` exactly when the stripped,
upper-cased confirmation equals `"YES"`. -/
def delete_item (db : List Record) (searchIn choiceIn confirmIn : String) :
    List Record × DeleteOutcome :=
  if db = [] then (db, .emptyDb)
  else
    let matchList := find_matches_by_title db (pyLower (pyStrip searchIn))
    if matchList = [] then (db, .noMatches)
    else
      match pyInt (pyStrip choiceIn) with
      | none => (db, .notANumber)
      | some choice =>
        if 1 ≤ choice ∧ choice ≤ matchList.length then
          let indexToDelete := (matchList.getD (choice.toNat - 1) (0, ⟨"", "", ""⟩)).1
          if pyUpper (pyStrip confirmIn) = "YES" then
            (db.eraseIdx indexToDelete, .deleted)
          else (db, .cancelled)
        else (db, .invalidSelection)

/-- The loop body of `search_by_genre` (`src/main.py:173-176`): records
whose lower-cased genre contains the stripped, lower-cased query. -/
def search_by_genre (db : List Record) (queryIn : String) : List Record :=
  if db = [] then []
  else db.filter fun item => pyIn (pyLower (pyStrip queryIn)) (pyLower item.genre)

/-! ## Export (`export_to_file`, `src/main.py:182-194`)

`json.dump(database, f, indent=2)` serializes the list of dicts in the
exact layout `[\n  \x7b\n    "Book": ...\n  \x7d\n]` with 2-space
indentation, `": "` after keys, `",\n"` between items, and JSON string
escaping with `ensure_ascii=True` (short escapes for `\" \\ \n \r \t`,
backspace and form feed; `\uXXXX` with lower-case hex for every other
character outside printable ASCII, as a surrogate pair above `U+FFFF`). -/

/-- Lower-case hex digit for a value below 16, as emitted by
`json.dump`'s `\uXXXX` escapes. -/
def hexDigitChar (n : Nat) : Char :=
  if n < 10 then Char.ofNat (48 + n) else Char.ofNat (87 + n)

/-- Four lower-case hex digits of a value below `0x10000`. -/
def toHex4 (n : Nat) : List Char :=
  [hexDigitChar (n / 4096 % 16), hexDigitChar (n / 256 % 16),
   hexDigitChar (n / 16 % 16), hexDigitChar (n % 16)]

/-- JSON escape of one character, following `json.dump` with
`ensure_ascii=True`: short escapes for quote, backslash and the five
named control characters; printable ASCII kept literal; everything else
as `\uXXXX`, using a surrogate pair above `U+FFFF`. -/
def escChar (c : Char) : List Char :=
  if c = '"' then ['\\', '"']
  else if c = '\\' then ['\\', '\\']
  else if c = '\n' then ['\\', 'n']
  else if c = '\r' then ['\\', 'r']
  else if c = '\t' then ['\\', 't']
  else if c = '\x08' then ['\\', 'b']
  else if c = '\x0c' then ['\\', 'f']
  else if 32 ≤ c.toNat ∧ c.toNat < 127 then [c]
  else if c.toNat < 65536 then '\\' :: 'u' :: toHex4 c.toNat
  else
    ('\\' :: 'u' :: toHex4 (55296 + (c.toNat - 65536) / 1024)) ++
    ('\\' :: 'u' :: toHex4 (56320 + (c.toNat - 65536) % 1024))

/-- JSON escape of a character sequence. -/
def escList : List Char → List Char
  | [] => []
  | c :: t => escChar c ++ escList t

/-- A JSON string literal: escaped content between double quotes. -/
def escQuoted (s : String) : List Char :=
  '"' :: (escList s.data ++ ['"'])

/-- The opening of one serialized record under `indent=2`:
two-space item indent, brace, newline, four-space key indent, `"Book": `. -/
def recOpen : List Char := "  \x7b\n    \"Book\": ".data

/-- Separator between the `Book` value and the `Author` key. -/
def sepBookAuthor : List Char := ",\n    \"Author\": ".data

/-- Separator between the `Author` value and the `Genre` key. -/
def sepAuthorGenre : List Char := ",\n    \"Genre\": ".data

/-- The closing of one serialized record: newline, two spaces, brace. -/
def recClose : List Char := "\n  \x7d".data

/-- One record as serialized by `json.dump([...], f, indent=2)`:
a mapping with keys `Book`, `Author`, `Genre` in that order. -/
def dumpRecordL (r : Record) : List Char :=
  recOpen ++ escQuoted r.book ++ sepBookAuthor ++ escQuoted r.author ++
    sepAuthorGenre ++ escQuoted r.genre ++ recClose

/-- The comma-newline separated items of the serialized list. -/
def dumpItemsL : List Record → List Char
  | [] => []
  | [r] => dumpRecordL r
  | r :: rest => dumpRecordL r ++ (',' :: '\n' :: dumpItemsL rest)

/-- `json.dump(database, f, indent=2)` (`src/main.py:191`): the full file
contents written by the export. -/
def json_dump (db : List Record) : String :=
  if db = [] then "[]" else ⟨"[\n".data ++ dumpItemsL db ++ "\n]".data⟩

/-- One hex digit value of a character, accepting both cases. -/
def fromHexDigit (c : Char) : Option Nat :=
  if 48 ≤ c.toNat ∧ c.toNat ≤ 57 then some (c.toNat - 48)
  else if 97 ≤ c.toNat ∧ c.toNat ≤ 102 then some (c.toNat - 87)
  else if 65 ≤ c.toNat ∧ c.toNat ≤ 70 then some (c.toNat - 55)
  else none

/-- Read four hex digits and return their value and the rest. -/
def parseHex4 : List Char → Option (Nat × List Char)
  | a :: b :: c :: d :: rest =>
    match fromHexDigit a, fromHexDigit b, fromHexDigit c, fromHexDigit d with
    | some x, some y, some z, some w => some (4096 * x + 256 * y + 16 * z + w, rest)
    | _, _, _, _ => none
  | _ => none

/-- Modelled from the spec: the export file is "re-read"; the repository
ships no reader, so this is a JSON string-escape reader in the style of
`json.load`, handling exactly the escapes `json.dump` emits (the short
escapes, `/`, and `\uXXXX` with surrogate-pair recombination; a lone
surrogate escape is rejected, since Lean `Char` cannot carry one). -/
def parseEsc : List Char → Option (Char × List Char)
  | [] => none
  | e :: rest =>
    if e = '"' then some ('"', rest)
    else if e = '\\' then some ('\\', rest)
    else if e = '/' then some ('/', rest)
    else if e = 'b' then some ('\x08', rest)
    else if e = 'f' then some ('\x0c', rest)
    else if e = 'n' then some ('\n', rest)
    else if e = 'r' then some ('\r', rest)
    else if e = 't' then some ('\t', rest)
    else if e = 'u' then
      match parseHex4 rest with
      | none => none
      | some (n, r1) =>
        if 55296 ≤ n ∧ n < 56320 then
          match r1 with
          | e1 :: e2 :: r2 =>
            if e1 = '\\' ∧ e2 = 'u' then
              match parseHex4 r2 with
              | none => none
              | some (m, r3) =>
                if 56320 ≤ m ∧ m < 57344 then
                  some (Char.ofNat ((n - 55296) * 1024 + (m - 56320) + 65536), r3)
                else none
            else none
          | _ => none
        else if 56320 ≤ n ∧ n < 57344 then none
        else some (Char.ofNat n, r1)
    else none

/-- Modelled from the spec: body of a JSON string literal, reading up to
the closing quote; the fuel argument (instantiated with the input length)
only serves termination. -/
def parseBodyF : Nat → List Char → Option (List Char × List Char)
  | 0, _ => none
  | _ + 1, [] => none
  | fuel + 1, c :: rest =>
    if c = '"' then some ([], rest)
    else if c = '\\' then
      match parseEsc rest with
      | none => none
      | some (d, rest') =>
        match parseBodyF fuel rest' with
        | none => none
        | some (cs, r) => some (d :: cs, r)
    else
      match parseBodyF fuel rest with
      | none => none
      | some (cs, r) => some (c :: cs, r)

/-- Modelled from the spec: a quoted JSON string literal. -/
def parseJString (l : List Char) : Option (String × List Char) :=
  match l with
  | [] => none
  | c :: rest =>
    if c = '"' then (parseBodyF rest.length rest).map fun p => (⟨p.1⟩, p.2)
    else none

/-- Consume an expected literal prefix, or fail. -/
def expectL : List Char → List Char → Option (List Char)
  | [], input => some input
  | _ :: _, [] => none
  | c :: cs, d :: input => if c = d then expectL cs input else none

/-- Modelled from the spec: one record of the export file, a mapping with
keys `Book`, `Author`, `Genre` at the layout `json.dump(..., indent=2)`
produces. -/
def parseRecord (l : List Char) : Option (Record × List Char) :=
  (expectL recOpen l).bind fun l1 =>
  (parseJString l1).bind fun p1 =>
  (expectL sepBookAuthor p1.2).bind fun l2 =>
  (parseJString l2).bind fun p2 =>
  (expectL sepAuthorGenre p2.2).bind fun l3 =>
  (parseJString l3).bind fun p3 =>
  (expectL recClose p3.2).map fun l4 => (⟨p1.1, p2.1, p3.1⟩, l4)

/-- Modelled from the spec: the comma-separated items of the export file,
ending at the closing `\n]`. The fuel argument (instantiated with the
input length) only serves termination. -/
def parseItemsF : Nat → List Char → Option (List Record)
  | 0, _ => none
  | fuel + 1, l =>
    (parseRecord l).bind fun p =>
    if p.2 = '\n' :: [']'] then some [p.1]
    else
      (expectL (',' :: ['\n']) p.2).bind fun rest =>
      (parseItemsF fuel rest).map fun rs => p.1 :: rs

/-- Modelled from the spec: re-read an export file produced by
`json.dump(database, f, indent=2)` back into a list of records. -/
def json_load (s : String) : Option (List Record) :=
  if s = "[]" then some []
  else
    match expectL "[\n".data s.data with
    | none => none
    | some l => parseItemsF l.length l

/-- A local timestamp as used by `datetime.now()` in `export_to_file`
(`src/main.py:187`); real time is outside the model, so the current time
is an explicit parameter. -/
structure Timestamp where
  year : Nat
  month : Nat
  day : Nat
  hour : Nat
  minute : Nat
  second : Nat
deriving DecidableEq, Repr

/-- Zero-padded two-digit field of `strftime`. -/
def pad2 (n : Nat) : String :=
  if n < 10 then "0" ++ toString n else toString n

/-- Zero-padded four-digit year of `strftime('%Y...')`. -/
def pad4 (n : Nat) : String :=
  if n < 10 then "000" ++ toString n
  else if n < 100 then "00" ++ toString n
  else if n < 1000 then "0" ++ toString n
  else toString n

/-- `datetime.now().strftime('%Y%m%d_%H%M%S')` (`src/main.py:187`). -/
def strftime_YmdHMS (t : Timestamp) : String :=
  pad4 t.year ++ pad2 t.month ++ pad2 t.day ++ "_" ++
    pad2 t.hour ++ pad2 t.minute ++ pad2 t.second

/-- `export_to_file` (`src/main.py:182-194`): on an empty database print a
message and return without creating a file (`none`); otherwise write the
serialized database to `books_export_<YYYYMMDD_HHMMSS>.json`. The result
is the written file as a (name, contents) pair. -/
def export_to_file (db : List Record) (now : Timestamp) :
    Option (String × String) :=
  if db = [] then none
  else some ("books_export_" ++ strftime_YmdHMS now ++ ".json", json_dump db)

/-! ## The menu loop (`main`, `src/main.py:197-229`) -/

/-- One iteration of the menu loop, as the dispatched operation together
with the `input()` strings that operation will consume. `other` covers
the exit option and invalid choices, which touch no data. -/
inductive MenuAction where
  | add (bookIn authorIn genreIn : String)
  | viewAll
  | search (queryIn : String)
  | edit (searchIn choiceIn fieldIn valueIn : String)
  | delete (searchIn choiceIn confirmIn : String)
  | searchGenre (queryIn : String)
  | exportFile (now : Timestamp)
  | other (choiceIn : String)

/-- The database after one iteration of the menu loop (`src/main.py:198-229`).
`view_all`, `search_items`, `search_by_genre` and `export_to_file` never
assign to `database` in the source, so they leave it unchanged here. -/
def menu_step (db : List Record) : MenuAction → List Record
  | .add b a g => (add_item db b a g).1
  | .viewAll => db
  | .search _ => db
  | .edit s c f v => (edit_item db s c f v).1
  | .delete s c k => (delete_item db s c k).1
  | .searchGenre _ => db
  | .exportFile _ => db
  | .other _ => db

/-- The spec's data-model invariant: every stored record has a non-empty
title. -/
def dbInv (db : List Record) : Prop :=
  ∀ r ∈ db, r.book ≠ ""

/-- The combination the spec's sentence describes, word for word: the
plain concatenation of title, author and genre, with no separator. Kept
distinct from `combinedFields` (the source's space-joined f-string) so
the two can be compared. -/
def specConcatFields (r : Record) : String :=
  r.book ++ r.author ++ r.genre

/-! ## Lemmas -/

theorem searchLoop_eq_filter (term : String) (db : List Record) :
    searchLoop term db =
      db.filter fun r => pyIn term (pyLower (combinedFields r)) := by
  induction db with
  | nil => rfl
  | cons r rest ih =>
    by_cases h : pyIn term (pyLower (combinedFields r))
    · simp [searchLoop, List.filter, h, ih]
    · simp [searchLoop, List.filter, h, ih]

theorem findMatchesAux_mem (t : String) (l : List Record) :
    ∀ (i0 i : Nat) (r : Record), (i, r) ∈ findMatchesAux t i0 l →
      i0 ≤ i ∧ l[i - i0]? = some r := by
  induction l with
  | nil => intro i0 i r h; simp [findMatchesAux] at h
  | cons x rest ih =>
    intro i0 i r h
    simp only [findMatchesAux] at h
    by_cases hx : pyIn t (pyLower x.book)
    · rw [if_pos hx] at h
      rcases List.mem_cons.1 h with h1 | h2
      · obtain ⟨h3, h4⟩ := Prod.mk.injEq .. ▸ h1
        subst h3; subst h4
        simp
      · obtain ⟨h5, h6⟩ := ih (i0 + 1) i r h2
        refine ⟨by omega, ?_⟩
        have : i - i0 = (i - (i0 + 1)) + 1 := by omega
        rw [this]
        simpa using h6
    · rw [if_neg hx] at h
      obtain ⟨h5, h6⟩ := ih (i0 + 1) i r h
      refine ⟨by omega, ?_⟩
      have : i - i0 = (i - (i0 + 1)) + 1 := by omega
      rw [this]
      simpa using h6

theorem find_matches_getElem (db : List Record) (t : String) (i : Nat)
    (r : Record) (h : (i, r) ∈ find_matches_by_title db t) :
    db[i]? = some r := by
  have := findMatchesAux_mem t db 0 i r h
  simpa using this.2

/-! ## Claim theorems -/

/-- C1, counterexample: the combined search does not match against the
bare concatenation of title, author and genre. For the record
`("ab", "cd", "ef")` the concatenation `"abcdef"` contains the query
`"bcd"`, yet the search prints nothing, because the source joins the
fields with spaces (`"ab cd ef"`). -/
theorem search_combined_concat_counterexample :
    pyIn (pyLower (pyStrip "bcd")) (pyLower (specConcatFields ⟨"ab", "cd", "ef"⟩)) = true ∧
    search_items [⟨"ab", "cd", "ef"⟩] "bcd" = [] := by
  decide

/-- C1, amended: for every catalog and query, the combined search (menu
option 3) prints exactly those records, in insertion order, whose
space-separated combination of title, author and genre contains the
trimmed query as a case-insensitive substring; in particular searching
"fan" matches a record whose genre is "Fantasy". -/
theorem search_combined_spec :
    (∀ (db : List Record) (queryIn : String),
      search_items db queryIn =
        db.filter fun r => pyIn (pyLower (pyStrip queryIn)) (pyLower (combinedFields r))) ∧
    search_items [⟨"Dune", "Herbert", "Fantasy"⟩] "fan" =
      [⟨"Dune", "Herbert", "Fantasy"⟩] := by
  constructor
  · intro db queryIn
    by_cases h : db = []
    · subst h; rfl
    · rw [search_items, if_neg h, searchLoop_eq_filter]
  · decide

/-- C4: adding a record whose title is empty after stripping is rejected
with the catalog unchanged; a non-empty stripped title is appended at the
end, with all existing records preserved in order. -/
theorem add_item_spec (db : List Record) (bookIn authorIn genreIn : String) :
    (pyStrip bookIn = "" →
      add_item db bookIn authorIn genreIn = (db, .emptyTitle)) ∧
    (pyStrip bookIn ≠ "" →
      add_item db bookIn authorIn genreIn =
        (db ++ [⟨pyStrip bookIn, pyStrip authorIn, pyStrip genreIn⟩], .added)) := by
  constructor
  · intro h; simp [add_item, h]
  · intro h; simp [add_item, h]

/-- Witness for C4 at concrete inputs: a whitespace-only title is
rejected, a padded title is stripped and appended. -/
theorem add_item_spec_witness :
    add_item [] "  " "a" "b" = ([], .emptyTitle) ∧
    add_item [⟨"Dune", "x", "y"⟩] " Em ma " "a" "b" =
      ([⟨"Dune", "x", "y"⟩, ⟨"Em ma", "a", "b"⟩], .added) :=
  ⟨(add_item_spec [] "  " "a" "b").1 (by decide),
   (add_item_spec [⟨"Dune", "x", "y"⟩] " Em ma " "a" "b").2 (by decide)⟩

/-- C10: exporting an empty catalog creates no file and raises no error:
the function returns after printing a message, producing no
(name, contents) pair, and the catalog is untouched. -/
theorem export_empty_no_file (now : Timestamp) :
    export_to_file [] now = none := rfl

/-- C5: with a successful selection and a valid field name, an edit whose
new value is empty after stripping makes no change: the catalog (hence
the record and the field) is returned exactly as it was, reporting
"No change made.". -/
theorem edit_empty_value_no_change (db : List Record)
    (searchIn choiceIn fieldIn valueIn : String) (n : Int)
    (hparse : pyInt (pyStrip choiceIn) = some n) (hlo : 1 ≤ n)
    (hhi : n ≤ (find_matches_by_title db (pyLower (pyStrip searchIn))).length)
    (hfield : validField (pyStrip fieldIn) = true)
    (hval : pyStrip valueIn = "") :
    edit_item db searchIn choiceIn fieldIn valueIn = (db, .noChange) := by
  have hmne : find_matches_by_title db (pyLower (pyStrip searchIn)) ≠ [] := by
    intro h
    rw [h] at hhi
    simp at hhi
    omega
  have hdb : db ≠ [] := by
    intro h
    subst h
    exact hmne rfl
  simp only [edit_item, if_neg hdb, if_neg hmne, hparse, if_pos (And.intro hlo hhi),
    if_pos hfield, if_pos hval]

/-- Witness for C5: editing the genre of "Dune" to a whitespace-only
value leaves the one-record catalog unchanged. -/
theorem edit_empty_value_no_change_witness :
    edit_item [⟨"Dune", "Herbert", "SciFi"⟩] "dune" "1" "Genre" "  " =
      ([⟨"Dune", "Herbert", "SciFi"⟩], .noChange) :=
  edit_empty_value_no_change [⟨"Dune", "Herbert", "SciFi"⟩] "dune" "1" "Genre" "  " 1
    (by decide) (by decide) (by decide) (by decide) (by decide)

/-- C6: with a successful selection, an edit naming a field that is not
one of `Book`, `Author`, `Genre` reports "Invalid field name." and leaves
the catalog (hence the record) unchanged. -/
theorem edit_invalid_field_unchanged (db : List Record)
    (searchIn choiceIn fieldIn valueIn : String) (n : Int)
    (hparse : pyInt (pyStrip choiceIn) = some n) (hlo : 1 ≤ n)
    (hhi : n ≤ (find_matches_by_title db (pyLower (pyStrip searchIn))).length)
    (hfield : validField (pyStrip fieldIn) = false) :
    edit_item db searchIn choiceIn fieldIn valueIn = (db, .invalidField) := by
  have hmne : find_matches_by_title db (pyLower (pyStrip searchIn)) ≠ [] := by
    intro h
    rw [h] at hhi
    simp at hhi
    omega
  have hdb : db ≠ [] := by
    intro h
    subst h
    exact hmne rfl
  have hf : ¬ (validField (pyStrip fieldIn) = true) := by simp [hfield]
  simp only [edit_item, if_neg hdb, if_neg hmne, hparse, if_pos (And.intro hlo hhi),
    if_neg hf]

/-- Witness for C6: the lower-case field name "genre" is not a dict key,
so the edit aborts. -/
theorem edit_invalid_field_unchanged_witness :
    edit_item [⟨"Dune", "Herbert", "SciFi"⟩] "dune" "1" "genre" "Fantasy" =
      ([⟨"Dune", "Herbert", "SciFi"⟩], .invalidField) :=
  edit_invalid_field_unchanged [⟨"Dune", "Herbert", "SciFi"⟩] "dune" "1" "genre" "Fantasy" 1
    (by decide) (by decide) (by decide) (by decide)

/-- C8: in the selection protocol shared by edit and delete, a non-numeric
selection input (`int` raises `ValueError`) or a numeric choice outside
`1..matches` aborts with an error outcome and no catalog mutation, for
every field/value/confirmation input; control falls back to the caller
(the menu loop) with no retry. -/
theorem selection_errors_abort (db : List Record) (searchIn choiceIn : String)
    (hdb : db ≠ [])
    (hmne : find_matches_by_title db (pyLower (pyStrip searchIn)) ≠ [])
    (hbad : pyInt (pyStrip choiceIn) = none ∨
      ∃ n, pyInt (pyStrip choiceIn) = some n ∧
        ¬(1 ≤ n ∧ n ≤ (find_matches_by_title db (pyLower (pyStrip searchIn))).length)) :
    (∀ fieldIn valueIn,
      edit_item db searchIn choiceIn fieldIn valueIn = (db, .notANumber) ∨
      edit_item db searchIn choiceIn fieldIn valueIn = (db, .invalidSelection)) ∧
    (∀ confirmIn,
      delete_item db searchIn choiceIn confirmIn = (db, .notANumber) ∨
      delete_item db searchIn choiceIn confirmIn = (db, .invalidSelection)) := by
  constructor
  · intro fieldIn valueIn
    rcases hbad with h | ⟨n, hn, hout⟩
    · left
      simp only [edit_item, if_neg hdb, if_neg hmne, h]
    · right
      simp only [edit_item, if_neg hdb, if_neg hmne, hn, if_neg hout]
  · intro confirmIn
    rcases hbad with h | ⟨n, hn, hout⟩
    · left
      simp only [delete_item, if_neg hdb, if_neg hmne, h]
    · right
      simp only [delete_item, if_neg hdb, if_neg hmne, hn, if_neg hout]

/-- Witness for C8: with one matching record, the non-numeric choice "x"
and the out-of-range choice "2" both abort edit and delete without
mutation. -/
theorem selection_errors_abort_witness :
    ((∀ fieldIn valueIn,
      edit_item [⟨"Dune", "Herbert", "SciFi"⟩] "dune" "x" fieldIn valueIn =
        ([⟨"Dune", "Herbert", "SciFi"⟩], .notANumber) ∨
      edit_item [⟨"Dune", "Herbert", "SciFi"⟩] "dune" "x" fieldIn valueIn =
        ([⟨"Dune", "Herbert", "SciFi"⟩], .invalidSelection)) ∧
    (∀ confirmIn,
      delete_item [⟨"Dune", "Herbert", "SciFi"⟩] "dune" "x" confirmIn =
        ([⟨"Dune", "Herbert", "SciFi"⟩], .notANumber) ∨
      delete_item [⟨"Dune", "Herbert", "SciFi"⟩] "dune" "x" confirmIn =
        ([⟨"Dune", "Herbert", "SciFi"⟩], .invalidSelection))) ∧
    ((∀ fieldIn valueIn,
      edit_item [⟨"Dune", "Herbert", "SciFi"⟩] "dune" "2" fieldIn valueIn =
        ([⟨"Dune", "Herbert", "SciFi"⟩], .notANumber) ∨
      edit_item [⟨"Dune", "Herbert", "SciFi"⟩] "dune" "2" fieldIn valueIn =
        ([⟨"Dune", "Herbert", "SciFi"⟩], .invalidSelection)) ∧
    (∀ confirmIn,
      delete_item [⟨"Dune", "Herbert", "SciFi"⟩] "dune" "2" confirmIn =
        ([⟨"Dune", "Herbert", "SciFi"⟩], .notANumber) ∨
      delete_item [⟨"Dune", "Herbert", "SciFi"⟩] "dune" "2" confirmIn =
        ([⟨"Dune", "Herbert", "SciFi"⟩], .invalidSelection))) :=
  ⟨selection_errors_abort [⟨"Dune", "Herbert", "SciFi"⟩] "dune" "x"
      (by decide) (by decide) (Or.inl (by decide)),
   selection_errors_abort [⟨"Dune", "Herbert", "SciFi"⟩] "dune" "2"
      (by decide) (by decide) (Or.inr ⟨2, by decide, by decide⟩)⟩

theorem validField_cases (f : String) (hf : validField f = true) :
    f = "Book" ∨ f = "Author" ∨ f = "Genre" := by
  simp only [validField, Bool.or_eq_true, decide_eq_true_eq] at hf
  tauto

theorem getField_setField_self (r : Record) (f v : String)
    (hf : validField f = true) : getField (setField r f v) f = v := by
  rcases validField_cases f hf with h | h | h <;> subst h <;> rfl

theorem getField_setField_ne (r : Record) (f g v : String)
    (hf : validField f = true) (hg : validField g = true) (hne : g ≠ f) :
    getField (setField r f v) g = getField r g := by
  rcases validField_cases f hf with h | h | h <;>
    rcases validField_cases g hg with h' | h' | h' <;>
      subst h <;> subst h' <;> first | rfl | exact absurd rfl hne

/-- C9: a successful edit rewrites the catalog at exactly the selected
index with the selected record updated in the single named field: the
catalog keeps its length, every other index is untouched, and the two
fields not named keep their values. -/
theorem edit_success_frame (db : List Record)
    (searchIn choiceIn fieldIn valueIn : String) (n : Int) (i : Nat) (r : Record)
    (hparse : pyInt (pyStrip choiceIn) = some n) (hlo : 1 ≤ n)
    (hhi : n ≤ (find_matches_by_title db (pyLower (pyStrip searchIn))).length)
    (hm : (find_matches_by_title db (pyLower (pyStrip searchIn)))[n.toNat - 1]? =
      some (i, r))
    (hfield : validField (pyStrip fieldIn) = true)
    (hval : pyStrip valueIn ≠ "") :
    edit_item db searchIn choiceIn fieldIn valueIn =
      (db.set i (setField r (pyStrip fieldIn) (pyStrip valueIn)), .updated) ∧
    (db.set i (setField r (pyStrip fieldIn) (pyStrip valueIn))).length = db.length ∧
    (∀ j, j ≠ i →
      (db.set i (setField r (pyStrip fieldIn) (pyStrip valueIn)))[j]? = db[j]?) ∧
    (db.set i (setField r (pyStrip fieldIn) (pyStrip valueIn)))[i]? =
      some (setField r (pyStrip fieldIn) (pyStrip valueIn)) ∧
    getField (setField r (pyStrip fieldIn) (pyStrip valueIn)) (pyStrip fieldIn) =
      pyStrip valueIn ∧
    (∀ g, validField g = true → g ≠ pyStrip fieldIn →
      getField (setField r (pyStrip fieldIn) (pyStrip valueIn)) g = getField r g) := by
  have hmne : find_matches_by_title db (pyLower (pyStrip searchIn)) ≠ [] := by
    intro h
    rw [h] at hhi
    simp at hhi
    omega
  have hdb : db ≠ [] := by
    intro h
    subst h
    exact hmne rfl
  have hdbi : db[i]? = some r :=
    find_matches_getElem db (pyLower (pyStrip searchIn)) i r (List.getElem?_mem hm)
  have hi : i < db.length := (List.getElem?_eq_some_iff.1 hdbi).1
  refine ⟨?_, by simp, ?_, ?_, getField_setField_self r _ _ hfield,
    fun g hg hne => getField_setField_ne r _ g _ hfield hg hne⟩
  · simp only [edit_item, if_neg hdb, if_neg hmne, hparse,
      if_pos (And.intro hlo hhi), List.getD_eq_getElem?_getD, hm, Option.getD_some,
      if_pos hfield, if_neg hval]
  · intro j hj
    exact List.getElem?_set_ne (fun h => hj h.symm)
  · rw [List.getElem?_set_self hi]

/-- Witness for C9: editing the genre of the second of two "Dune" matches
changes only that record's genre. -/
theorem edit_success_frame_witness :
    edit_item [⟨"Dune", "Herbert", "SciFi"⟩, ⟨"Dune2", "Herbert", "SciFi"⟩]
        "dune" "2" "Genre" " Fantasy " =
      ([⟨"Dune", "Herbert", "SciFi"⟩, ⟨"Dune2", "Herbert", "Fantasy"⟩], .updated) := by
  have h := edit_success_frame
    [⟨"Dune", "Herbert", "SciFi"⟩, ⟨"Dune2", "Herbert", "SciFi"⟩]
    "dune" "2" "Genre" " Fantasy " 2 1 ⟨"Dune2", "Herbert", "SciFi"⟩
    (by decide) (by decide) (by decide) (by decide) (by decide) (by decide)
  exact h.1

/-- C3: once a record is selected, delete removes exactly that record
(the prefix before it and the suffix after it survive in order, and the
size drops by one) precisely when the stripped, upper-cased confirmation
input is the literal "YES"; any other confirmation leaves the catalog
completely unchanged. -/
theorem delete_confirmation_spec (db : List Record)
    (searchIn choiceIn confirmIn : String) (n : Int) (i : Nat) (r : Record)
    (hparse : pyInt (pyStrip choiceIn) = some n) (hlo : 1 ≤ n)
    (hhi : n ≤ (find_matches_by_title db (pyLower (pyStrip searchIn))).length)
    (hm : (find_matches_by_title db (pyLower (pyStrip searchIn)))[n.toNat - 1]? =
      some (i, r)) :
    (pyUpper (pyStrip confirmIn) = "YES" →
      delete_item db searchIn choiceIn confirmIn =
        (db.take i ++ db.drop (i + 1), .deleted)) ∧
    (pyUpper (pyStrip confirmIn) ≠ "YES" →
      delete_item db searchIn choiceIn confirmIn = (db, .cancelled)) ∧
    db[i]? = some r ∧
    (db.take i ++ db.drop (i + 1)).length + 1 = db.length := by
  have hmne : find_matches_by_title db (pyLower (pyStrip searchIn)) ≠ [] := by
    intro h
    rw [h] at hhi
    simp at hhi
    omega
  have hdb : db ≠ [] := by
    intro h
    subst h
    exact hmne rfl
  have hdbi : db[i]? = some r :=
    find_matches_getElem db (pyLower (pyStrip searchIn)) i r (List.getElem?_mem hm)
  have hi : i < db.length := (List.getElem?_eq_some_iff.1 hdbi).1
  refine ⟨fun hc => ?_, fun hc => ?_, hdbi, ?_⟩
  · simp only [delete_item, if_neg hdb, if_neg hmne, hparse,
      if_pos (And.intro hlo hhi), List.getD_eq_getElem?_getD, hm, Option.getD_some,
      if_pos hc, List.eraseIdx_eq_take_drop_succ]
  · simp only [delete_item, if_neg hdb, if_neg hmne, hparse,
      if_pos (And.intro hlo hhi), List.getD_eq_getElem?_getD, hm, Option.getD_some,
      if_neg hc]
  · simp only [List.length_append, List.length_take, List.length_drop]
    omega

/-- Witness for C3: confirming with " yes " (upper-cases to "YES") deletes
the selected first record; confirming with "no" leaves the catalog
unchanged. -/
theorem delete_confirmation_spec_witness :
    delete_item [⟨"Dune", "Herbert", "SciFi"⟩, ⟨"Dune2", "Herbert", "SciFi"⟩]
        "dune" "1" " yes " = ([⟨"Dune2", "Herbert", "SciFi"⟩], .deleted) ∧
    delete_item [⟨"Dune", "Herbert", "SciFi"⟩, ⟨"Dune2", "Herbert", "SciFi"⟩]
        "dune" "1" "no" =
      ([⟨"Dune", "Herbert", "SciFi"⟩, ⟨"Dune2", "Herbert", "SciFi"⟩], .cancelled) :=
  ⟨(delete_confirmation_spec
      [⟨"Dune", "Herbert", "SciFi"⟩, ⟨"Dune2", "Herbert", "SciFi"⟩]
      "dune" "1" " yes " 1 0 ⟨"Dune", "Herbert", "SciFi"⟩
      (by decide) (by decide) (by decide) (by decide)).1 (by decide),
   (delete_confirmation_spec
      [⟨"Dune", "Herbert", "SciFi"⟩, ⟨"Dune2", "Herbert", "SciFi"⟩]
      "dune" "1" "no" 1 0 ⟨"Dune", "Herbert", "SciFi"⟩
      (by decide) (by decide) (by decide) (by decide)).2.1 (by decide)⟩

theorem edit_item_fst_inv (db : List Record) (s c f v : String)
    (h : dbInv db) : dbInv (edit_item db s c f v).1 := by
  simp only [edit_item]
  split
  · exact h
  split
  · exact h
  split
  · exact h
  rename_i choice _
  split
  case isFalse => exact h
  rename_i hrange
  split
  case isFalse => exact h
  rename_i hfield
  split
  case isTrue => exact h
  rename_i hval
  -- the mutating branch: the catalog with the selected record updated
  set matchList := find_matches_by_title db (pyLower (pyStrip s)) with hml
  have hk : choice.toNat - 1 < matchList.length := by omega
  have hgd : matchList.getD (choice.toNat - 1) (0, ⟨"", "", ""⟩) =
      matchList[choice.toNat - 1] := by
    rw [List.getD_eq_getElem?_getD, List.getElem?_eq_getElem hk, Option.getD_some]
  rw [hgd]
  intro x hx
  rcases List.mem_or_eq_of_mem_set hx with hx' | hx'
  · exact h x hx'
  · subst hx'
    have hmem : (matchList[choice.toNat - 1].1, matchList[choice.toNat - 1].2) ∈
        matchList := by
      exact List.getElem_mem hk
    have hdbi := find_matches_getElem db (pyLower (pyStrip s)) _ _ hmem
    have hrec : matchList[choice.toNat - 1].2 ∈ db := List.getElem?_mem hdbi
    rcases validField_cases (pyStrip f) hfield with hf | hf | hf <;> rw [hf]
    · exact hval
    · show matchList[choice.toNat - 1].2.book ≠ ""
      exact h _ hrec
    · show matchList[choice.toNat - 1].2.book ≠ ""
      exact h _ hrec


theorem delete_item_fst_inv (db : List Record) (s c k : String)
    (h : dbInv db) : dbInv (delete_item db s c k).1 := by
  simp only [delete_item]
  split
  · exact h
  split
  · exact h
  split
  · exact h
  split
  case isFalse => exact h
  split
  case isFalse => exact h
  exact fun x hx => h x (List.eraseIdx_subset _ _ hx)

/-- C2: the invariant "every stored record has a non-empty title" is
preserved by one step of the menu loop, whichever operation it dispatches
to (add, view, search, edit, delete, genre search, export, or an invalid
choice): add rejects an empty stripped title, edit never writes an empty
stripped value, and the read-only operations never assign to the
database. -/
theorem menu_step_preserves_inv (db : List Record) (act : MenuAction)
    (h : dbInv db) : dbInv (menu_step db act) := by
  cases act with
  | add b a g =>
    simp only [menu_step, add_item]
    split
    · exact h
    · rename_i hne
      intro x hx
      rcases List.mem_append.1 hx with hx' | hx'
      · exact h x hx'
      · rcases List.mem_singleton.1 hx' with rfl
        exact hne
  | viewAll => exact h
  | search _ => exact h
  | edit s c f v => exact edit_item_fst_inv db s c f v h
  | delete s c k => exact delete_item_fst_inv db s c k h
  | searchGenre _ => exact h
  | exportFile _ => exact h
  | other _ => exact h

/-- Witness for C2: a valid catalog stays valid across an add (the
stripped nonempty title "X" is appended), shown at a concrete state. -/
theorem menu_step_preserves_inv_witness :
    dbInv [⟨"Dune", "Herbert", "SciFi"⟩] ∧
    dbInv (menu_step [⟨"Dune", "Herbert", "SciFi"⟩] (.add " X " "a" "g")) :=
  ⟨by unfold dbInv; decide, menu_step_preserves_inv [⟨"Dune", "Herbert", "SciFi"⟩]
    (.add " X " "a" "g") (by unfold dbInv; decide)⟩

/-! ## Round trip of the export encoding -/

theorem fromHexDigit_hexDigitChar (d : Nat) (h : d < 16) :
    fromHexDigit (hexDigitChar d) = some d := by
  interval_cases d <;> rfl

theorem parseHex4_toHex4 (n : Nat) (h : n < 65536) (rest : List Char) :
    parseHex4 (toHex4 n ++ rest) = some (n, rest) := by
  have h1 : n / 4096 % 16 < 16 := Nat.mod_lt _ (by omega)
  have h2 : n / 256 % 16 < 16 := Nat.mod_lt _ (by omega)
  have h3 : n / 16 % 16 < 16 := Nat.mod_lt _ (by omega)
  have h4 : n % 16 < 16 := Nat.mod_lt _ (by omega)
  simp only [toHex4, List.cons_append, List.nil_append, parseHex4,
    fromHexDigit_hexDigitChar _ h1, fromHexDigit_hexDigitChar _ h2,
    fromHexDigit_hexDigitChar _ h3, fromHexDigit_hexDigitChar _ h4]
  congr 1
  congr 1
  omega

theorem expectL_append (l rest : List Char) : expectL l (l ++ rest) = some rest := by
  induction l with
  | nil => rfl
  | cons c t ih => simp [expectL, ih]

theorem escChar_length_pos (c : Char) : 0 < (escChar c).length := by
  unfold escChar
  repeat' split
  all_goals simp

theorem escList_length_ge (l : List Char) : l.length ≤ (escList l).length := by
  induction l with
  | nil => simp [escList]
  | cons c t ih =>
    simp only [escList, List.length_append, List.length_cons]
    have := escChar_length_pos c
    omega

theorem char_valid_bounds (c : Char) :
    c.toNat < 1114112 ∧ (c.toNat < 55296 ∨ 57343 < c.toNat) := by
  have h : c.val.toNat < 55296 ∨ (57343 < c.val.toNat ∧ c.val.toNat < 1114112) :=
    c.valid
  have he : c.toNat = c.val.toNat := rfl
  rw [he]
  omega

theorem parseEsc_u_single (n : Nat) (X : List Char) (h16 : n < 65536)
    (h1 : ¬(55296 ≤ n ∧ n < 56320)) (h2 : ¬(56320 ≤ n ∧ n < 57344)) :
    parseEsc ('u' :: (toHex4 n ++ X)) = some (Char.ofNat n, X) := by
  simp only [parseEsc, parseHex4_toHex4 n h16 X]
  rw [if_neg h1, if_neg h2]
  simp

theorem parseEsc_u_pair (hi lo : Nat) (X : List Char)
    (hhi : 55296 ≤ hi ∧ hi < 56320) (hlo : 56320 ≤ lo ∧ lo < 57344)
    (hhi16 : hi < 65536) (hlo16 : lo < 65536) :
    parseEsc ('u' :: (toHex4 hi ++ ('\\' :: 'u' :: (toHex4 lo ++ X)))) =
      some (Char.ofNat ((hi - 55296) * 1024 + (lo - 56320) + 65536), X) := by
  simp only [parseEsc, parseHex4_toHex4 hi hhi16, if_pos hhi,
    parseHex4_toHex4 lo hlo16, if_pos hlo]
  simp

/-- Each escaped character either stays literal (and is then neither a
quote nor a backslash) or becomes a backslash escape that the reader
undoes exactly. -/
theorem esc_step (c : Char) :
    (escChar c = [c] ∧ c ≠ '"' ∧ c ≠ '\\') ∨
    (∃ es, escChar c = '\\' :: es ∧
      ∀ X, parseEsc (es ++ X) = some (c, X)) := by
  by_cases h1 : c = '"'
  · exact Or.inr ⟨['"'], by rw [h1]; rfl, fun X => by rw [h1]; rfl⟩
  by_cases h2 : c = '\\'
  · exact Or.inr ⟨['\\'], by rw [h2]; rfl, fun X => by rw [h2]; rfl⟩
  by_cases h3 : c = '\n'
  · exact Or.inr ⟨['n'], by rw [h3]; rfl, fun X => by rw [h3]; rfl⟩
  by_cases h4 : c = '\r'
  · exact Or.inr ⟨['r'], by rw [h4]; rfl, fun X => by rw [h4]; rfl⟩
  by_cases h5 : c = '\t'
  · exact Or.inr ⟨['t'], by rw [h5]; rfl, fun X => by rw [h5]; rfl⟩
  by_cases h6 : c = '\x08'
  · exact Or.inr ⟨['b'], by rw [h6]; rfl, fun X => by rw [h6]; rfl⟩
  by_cases h7 : c = '\x0c'
  · exact Or.inr ⟨['f'], by rw [h7]; rfl, fun X => by rw [h7]; rfl⟩
  by_cases h8 : 32 ≤ c.toNat ∧ c.toNat < 127
  · refine Or.inl ⟨?_, h1, h2⟩
    simp only [escChar, if_neg h1, if_neg h2, if_neg h3, if_neg h4, if_neg h5,
      if_neg h6, if_neg h7, if_pos h8]
  have hb := char_valid_bounds c
  by_cases h9 : c.toNat < 65536
  · refine Or.inr ⟨'u' :: toHex4 c.toNat, ?_, fun X => ?_⟩
    · simp only [escChar, if_neg h1, if_neg h2, if_neg h3, if_neg h4, if_neg h5,
        if_neg h6, if_neg h7, if_neg h8, if_pos h9]
    · have := parseEsc_u_single c.toNat X h9 (by omega) (by omega)
      simpa [Char.ofNat_toNat] using this
  · refine Or.inr ⟨'u' :: toHex4 (55296 + (c.toNat - 65536) / 1024) ++
      '\\' :: 'u' :: toHex4 (56320 + (c.toNat - 65536) % 1024), ?_, fun X => ?_⟩
    · simp only [escChar, if_neg h1, if_neg h2, if_neg h3, if_neg h4, if_neg h5,
        if_neg h6, if_neg h7, if_neg h8, if_neg h9]
      simp
    · have hm : (c.toNat - 65536) % 1024 < 1024 := Nat.mod_lt _ (by omega)
      have hd : (c.toNat - 65536) / 1024 < 1024 := by omega
      have := parseEsc_u_pair (55296 + (c.toNat - 65536) / 1024)
        (56320 + (c.toNat - 65536) % 1024) X (by omega) (by omega)
        (by omega) (by omega)
      have harith : (55296 + (c.toNat - 65536) / 1024 - 55296) * 1024 +
          (56320 + (c.toNat - 65536) % 1024 - 56320) + 65536 = c.toNat := by
        have := Nat.div_add_mod (c.toNat - 65536) 1024
        omega
      rw [harith, Char.ofNat_toNat] at this
      simpa [List.cons_append, List.append_assoc] using this

/-- The JSON-escaped body of a string followed by its closing quote reads
back as exactly the original characters. -/
theorem parseBodyF_escList (l : List Char) :
    ∀ (fuel : Nat) (rest : List Char), l.length < fuel →
      parseBodyF fuel (escList l ++ ('"' :: rest)) = some (l, rest) := by
  induction l with
  | nil =>
    intro fuel rest h
    cases fuel with
    | zero => omega
    | succ fuel => simp [escList, parseBodyF]
  | cons c t ih =>
    intro fuel rest h
    cases fuel with
    | zero => omega
    | succ fuel =>
      have ht : t.length < fuel := by
        simp only [List.length_cons] at h
        omega
      rcases esc_step c with ⟨hlit, hq, hbs⟩ | ⟨es, hesc, hparse⟩
      · simp only [escList, hlit, List.cons_append, List.nil_append, parseBodyF,
          if_neg hq, if_neg hbs, ih fuel rest ht]
      · simp only [escList, hesc, List.cons_append, List.append_assoc, parseBodyF,
          if_neg (show ('\\' : Char) ≠ '"' by decide), if_pos rfl,
          hparse (escList t ++ '"' :: rest), ih fuel rest ht]
        simp

theorem parseJString_escQuoted (s : String) (rest : List Char) :
    parseJString (escQuoted s ++ rest) = some (s, rest) := by
  have h : escQuoted s ++ rest = '"' :: (escList s.data ++ ('"' :: rest)) := by
    simp [escQuoted]
  rw [h]
  have hlen : s.data.length < (escList s.data ++ ('"' :: rest)).length := by
    have := escList_length_ge s.data
    simp only [List.length_append, List.length_cons]
    omega
  simp only [parseJString, if_pos rfl, parseBodyF_escList s.data _ rest hlen,
    Option.map_some']
  simp

theorem parseRecord_dumpRecordL (r : Record) (rest : List Char) :
    parseRecord (dumpRecordL r ++ rest) = some (r, rest) := by
  simp only [dumpRecordL, List.append_assoc, parseRecord, expectL_append,
    parseJString_escQuoted, Option.some_bind, Option.map_some']

theorem dumpItemsL_length_ge (db : List Record) :
    db.length ≤ (dumpItemsL db).length := by
  induction db with
  | nil => simp [dumpItemsL]
  | cons r rest ih =>
    have hr : 16 ≤ (dumpRecordL r).length := by
      have h16 : recOpen.length = 16 := rfl
      simp only [dumpRecordL, List.length_append, h16]
      omega
    cases rest with
    | nil => simpa [dumpItemsL] using by omega
    | cons r2 rest2 =>
      simp only [dumpItemsL, List.length_append, List.length_cons] at ih ⊢
      omega

theorem parseItemsF_dumpItemsL (db : List Record) :
    ∀ (fuel : Nat), db ≠ [] → db.length ≤ fuel →
      parseItemsF fuel (dumpItemsL db ++ '\n' :: [']']) = some db := by
  induction db with
  | nil => intro fuel h; exact absurd rfl h
  | cons r rest ih =>
    intro fuel _ hlen
    cases fuel with
    | zero => simp at hlen
    | succ fuel =>
      cases rest with
      | nil =>
        simp only [dumpItemsL, parseItemsF, parseRecord_dumpRecordL,
          Option.some_bind]
        simp
      | cons r2 rest2 =>
        simp only [dumpItemsL, List.cons_append, List.append_assoc, parseItemsF,
          parseRecord_dumpRecordL, Option.some_bind]
        rw [if_neg (by simp)]
        have hstep : expectL (',' :: ['\n'])
            (',' :: '\n' :: (dumpItemsL (r2 :: rest2) ++ '\n' :: [']'])) =
            some (dumpItemsL (r2 :: rest2) ++ '\n' :: [']']) := rfl
        rw [hstep, Option.some_bind,
          ih fuel (by simp) (by simp only [List.length_cons] at hlen ⊢; omega)]
        rfl

/-- Parsing back the exact text `json.dump(database, f, indent=2)` wrote
recovers the database, record for record and field for field. -/
theorem json_load_json_dump (db : List Record) :
    json_load (json_dump db) = some db := by
  by_cases hdb : db = []
  · subst hdb
    rfl
  · have hdata : (json_dump db).data =
        "[\n".data ++ (dumpItemsL db ++ '\n' :: [']']) := by
      simp only [json_dump, if_neg hdb]
      show "[\n".data ++ dumpItemsL db ++ "\n]".data =
        "[\n".data ++ (dumpItemsL db ++ '\n' :: [']'])
      rw [List.append_assoc]
    have hne : json_dump db ≠ "[]" := by
      intro h
      have hd := congrArg String.data h
      rw [hdata] at hd
      have h2 : "[]".data = ['[', ']'] := rfl
      have h3 : "[\n".data = ['[', '\n'] := rfl
      rw [h2, h3] at hd
      simp at hd
    rw [json_load, if_neg hne, hdata, expectL_append]
    exact parseItemsF_dumpItemsL db _ hdb
      (le_trans (dumpItemsL_length_ge db) (by simp))

/-- C7: exporting a non-empty catalog writes the serialized catalog to a
file whose name embeds the current local timestamp as
`books_export_<YYYYMMDD_HHMMSS>.json`; parsing the produced contents back
yields the in-memory catalog exactly, field by field and in order; and
the contents serialize each record as a mapping with keys `Book`,
`Author`, `Genre` under 2-space indentation (shown literally on a sample
record). -/
theorem export_round_trip (db : List Record) (now : Timestamp) (h : db ≠ []) :
    export_to_file db now =
      some ("books_export_" ++ strftime_YmdHMS now ++ ".json", json_dump db) ∧
    json_load (json_dump db) = some db ∧
    json_dump [⟨"Dune", "Herbert", "SciFi"⟩] =
      "[\n  \x7b\n    \"Book\": \"Dune\",\n    \"Author\": \"Herbert\",\n    \"Genre\": \"SciFi\"\n  \x7d\n]" :=
  ⟨by simp [export_to_file, h], json_load_json_dump db, by decide⟩

/-- Witness for C7 at a concrete catalog and timestamp: the file is named
from the timestamp and its contents parse back to the catalog. -/
theorem export_round_trip_witness :
    export_to_file [⟨"Dune", "Herbert", "SciFi"⟩] ⟨2026, 10, 12, 9, 5, 3⟩ =
      some ("books_export_20261012_090503.json",
        json_dump [⟨"Dune", "Herbert", "SciFi"⟩]) ∧
    json_load (json_dump [⟨"Dune", "Herbert", "SciFi"⟩]) =
      some [⟨"Dune", "Herbert", "SciFi"⟩] := by
  have h := export_round_trip [⟨"Dune", "Herbert", "SciFi"⟩]
    ⟨2026, 10, 12, 9, 5, 3⟩ (by decide)
  exact ⟨h.1, h.2.1⟩

end BookDb
